import Mathlib

/-!
Verification of the video-transcriber core against its specification.

Shallow embedding of `src/utils/audio/chunking.py` (class `AudioChunker`:
`split_audio`, `merge_results`), `src/services/task_service.py`
(`TaskService.update_task_status`, batch counters), `src/core/engine.py`
(`process_batch_urls` counter updates) and
`src/core/sensevoice_transcriber.py` (`_clean_special_tokens`).

Time values and confidences are embedded as rationals (the Python floats in
these code paths are produced by exact small-integer arithmetic in every case
the theorems touch); Python ints are embedded as `Int`; fallible code is
embedded with `Except`.
-/

namespace VideoTranscriber

/-! ### Audio chunking: `AudioChunker.split_audio` -/

/-- Path of a produced chunk: either the original input file (returned whole)
or the i-th extracted chunk file `chunk_i.wav`. -/
inductive ChunkPath where
  | original : ChunkPath
  | chunk : ℕ → ChunkPath
deriving DecidableEq, Repr

/-- One element of the list returned by `split_audio`:
the Python tuple `(chunk_path, start_time, end_time)`. -/
structure AudioChunk where
  path : ChunkPath
  start_time : ℚ
  end_time : ℚ
deriving DecidableEq, Repr

/-- Constructor arguments of the Python class `AudioChunker`
(`chunk_duration`, `overlap`, `min_duration_for_chunking`; all Python ints). -/
structure AudioChunker where
  chunk_duration : ℤ
  overlap : ℤ
  min_duration_for_chunking : ℤ
deriving DecidableEq, Repr

/-- The module-level default instance `AudioChunker()` /
`get_audio_chunker()` defaults: 300 s chunks, 2 s overlap, 600 s threshold. -/
def defaultAudioChunker : AudioChunker :=
  { chunk_duration := 300, overlap := 2, min_duration_for_chunking := 600 }

/-- The chunker built by `SenseVoiceTranscriber.__init__` via
`get_audio_chunker(chunk_duration=180, overlap=2, min_duration=300)`
(constructor defaults `chunk_duration_seconds=180`, `chunk_overlap_seconds=2`,
`min_duration_for_chunking=300`). -/
def sensevoiceAudioChunker : AudioChunker :=
  { chunk_duration := 180, overlap := 2, min_duration_for_chunking := 300 }

/-- `AudioChunker.should_chunk`: chunk exactly when the probed duration is
strictly greater than `min_duration_for_chunking`. -/
def should_chunk (cfg : AudioChunker) (duration : ℚ) : Bool :=
  decide ((cfg.min_duration_for_chunking : ℚ) < duration)

/-- The `while start_time < total_duration` loop of `split_audio`,
with explicit fuel. `ffmpegOk i` tells whether the `ffmpeg` extraction of
chunk `i` succeeds; a failed extraction raises, which the embedding returns
as `Except.error ()` (caught by the wrapper `split_audio`).

Loop body, faithful to the source: `end_time = min(start + chunk_duration,
total)`; a block shorter than 300 s is skipped by breaking out of the loop;
after appending, the loop stops when `end_time >= total - 1`, else the next
start is `end_time - overlap`. -/
def splitLoop (cfg : AudioChunker) (ffmpegOk : ℕ → Bool) (total : ℚ) :
    ℕ → ℚ → ℕ → List AudioChunk → Except Unit (List AudioChunk)
  | 0, _, _, acc => Except.ok acc.reverse
  | fuel + 1, start, idx, acc =>
      if start < total then
        let endT := min (start + (cfg.chunk_duration : ℚ)) total
        if endT - start < 300 then
          Except.ok acc.reverse
        else if ffmpegOk idx then
          let acc' := { path := ChunkPath.chunk idx,
                        start_time := start, end_time := endT } :: acc
          if total - 1 ≤ endT then
            Except.ok acc'.reverse
          else
            splitLoop cfg ffmpegOk total fuel (endT - (cfg.overlap : ℚ)) (idx + 1) acc'
        else
          Except.error ()
      else
        Except.ok acc.reverse

/-- Fuel bounding the number of loop iterations: every continuing iteration
advances the start by `chunk_duration - overlap`, so
`⌊total⌋ / (chunk_duration - overlap) + 3` iterations suffice whenever the
source loop terminates. When `overlap ≥ chunk_duration` the source loop
never terminates; the model then truncates, and no claim concerns those
configurations — every structural theorem below is proved for every fuel
value. -/
def splitFuel (cfg : AudioChunker) (total : ℚ) : ℕ :=
  total.num.natAbs / (cfg.chunk_duration - cfg.overlap).toNat + 3

/-- `AudioChunker.split_audio`: when `should_chunk` is false the original
file is returned as a single whole-file chunk; otherwise the chunk loop runs
and on any extraction error the `except` handler returns the original file
as a single whole-file chunk instead of propagating the failure. -/
def split_audio (cfg : AudioChunker) (ffmpegOk : ℕ → Bool) (total : ℚ) :
    List AudioChunk :=
  if should_chunk cfg total then
    match splitLoop cfg ffmpegOk total (splitFuel cfg total) 0 0 [] with
    | Except.ok cs => cs
    | Except.error _ =>
        [{ path := ChunkPath.original, start_time := 0, end_time := total }]
  else
    [{ path := ChunkPath.original, start_time := 0, end_time := total }]

/-- Structural predicate on an emitted chunk list: viewed from loop position
`s`, every chunk starts at `s`, ends at `min (start + chunk_duration) total`,
is at least 300 s long, and the next chunk is viewed from `end - overlap`. -/
def chunksChainedFrom (cfg : AudioChunker) (total : ℚ) : ℚ → List AudioChunk → Bool
  | _, [] => true
  | s, c :: cs =>
      decide (c.start_time = s) &&
      decide (c.end_time = min (s + (cfg.chunk_duration : ℚ)) total) &&
      decide ((300 : ℚ) ≤ c.end_time - c.start_time) &&
      chunksChainedFrom cfg total (c.end_time - (cfg.overlap : ℚ)) cs

/-! ### Result merging: `AudioChunker.merge_results` -/

/-- A segment dict as consumed by `merge_results`:
keys `start`, `end`, `text`, `confidence` (`stop` embeds the dict key `end`,
which is a Lean keyword). -/
structure Seg where
  start : ℚ
  stop : ℚ
  text : String
  confidence : ℚ
deriving DecidableEq, Repr

/-- A chunk-result dict as consumed by `merge_results` (and produced by
`SenseVoiceTranscriber._transcribe_single_chunk`): keys `text`, `segments`,
`language`, `confidence`, `processing_time`, `start_time`, `end_time`. -/
structure ChunkResult where
  text : String
  segments : List Seg
  language : String
  confidence : ℚ
  processing_time : ℚ
  start_time : ℚ
  end_time : ℚ
deriving DecidableEq, Repr

/-- The dict returned by `merge_results`. `confidence` is an `Option`
because the empty-input early return builds a dict without a
`confidence` key. -/
structure MergedResult where
  text : String
  segments : List Seg
  language : String
  confidence : Option ℚ
  processing_time : ℚ
deriving DecidableEq, Repr

/-- The in-place timestamp adjustment `seg["start"] += time_offset;
seg["end"] += time_offset` applied to later-chunk segments. -/
def shiftSeg (off : ℚ) (s : Seg) : Seg :=
  { s with start := s.start + off, stop := s.stop + off }

/-- Loop state of `merge_results` while iterating over `chunk_results`. -/
structure MergeState where
  merged_text : List String
  merged_segments : List Seg
  total_time : ℚ
  detected_language : String
  time_offset : ℚ

/-- The `for i, chunk_result in enumerate(chunk_results)` loop for `i ≥ 1`:
shift the chunk's segments by the running `time_offset`; when the chunk has
more than one segment append `chunk_segments[1:]` (and their non-empty
texts), otherwise append nothing; then advance `time_offset` by
`(end_time - start_time) - overlap_seconds`. -/
def mergeRest (overlap : ℚ) : MergeState → List ChunkResult → MergeState
  | st, [] => st
  | st, r :: rs =>
      let shifted := r.segments.map (shiftSeg st.time_offset)
      let newSegs := if 1 < shifted.length then shifted.tail else []
      let newTexts := (newSegs.filter (fun s => decide (s.text ≠ ""))).map Seg.text
      mergeRest overlap
        { merged_text := st.merged_text ++ newTexts
          merged_segments := st.merged_segments ++ newSegs
          total_time := st.total_time + r.processing_time
          detected_language := st.detected_language
          time_offset := st.time_offset + ((r.end_time - r.start_time) - overlap) }
        rs

/-- `AudioChunker.merge_results`. Empty input returns the fixed empty dict
(which has no `confidence` key); a single chunk result is returned as-is;
otherwise the first chunk contributes its text and unshifted segments, the
loop of `mergeRest` processes the rest, the texts are joined with single
spaces and stripped, and the overall confidence is the mean of the truthy
(non-zero) segment confidences, defaulting to 0.5. -/
def merge_results (overlap : ℚ) (chunk_results : List ChunkResult) : MergedResult :=
  match chunk_results with
  | [] =>
      { text := "", segments := [], language := "unknown",
        confidence := none, processing_time := 0 }
  | [r] =>
      { text := r.text, segments := r.segments, language := r.language,
        confidence := some r.confidence, processing_time := r.processing_time }
  | r0 :: rest =>
      let st0 : MergeState :=
        { merged_text := if r0.text ≠ "" then [r0.text] else []
          merged_segments := r0.segments
          total_time := r0.processing_time
          detected_language := if r0.language ≠ "unknown" then r0.language else "unknown"
          time_offset := (r0.end_time - r0.start_time) - overlap }
      let st := mergeRest overlap st0 rest
      let confs := (st.merged_segments.filter
        (fun s => decide (s.confidence ≠ 0))).map Seg.confidence
      let avg : ℚ := if confs = [] then 1 / 2 else confs.sum / (confs.length : ℚ)
      { text := (String.intercalate " " st.merged_text).trim
        segments := st.merged_segments
        language := st.detected_language
        confidence := some avg
        processing_time := st.total_time }

/-- The segments contributed by the chunks after the first, starting from
time offset `off`: the shifted tail when the chunk has more than one
segment, nothing otherwise. -/
def survivorsAux (overlap : ℚ) : ℚ → List ChunkResult → List Seg
  | _, [] => []
  | off, r :: rs =>
      let shifted := r.segments.map (shiftSeg off)
      (if 1 < shifted.length then shifted.tail else []) ++
        survivorsAux overlap (off + ((r.end_time - r.start_time) - overlap)) rs

/-- All segments surviving the merge, in output order: the first chunk's
segments unshifted, then each later chunk's contribution. -/
def survivors (overlap : ℚ) : List ChunkResult → List Seg
  | [] => []
  | r0 :: rest =>
      r0.segments ++ survivorsAux overlap ((r0.end_time - r0.start_time) - overlap) rest

/-! ### Task store: `TaskService.update_task_status` and batch counters -/

/-- `models.schemas.TaskStatus`. -/
inductive TaskStatus where
  | pending
  | extracting
  | transcribing
  | completed
  | failed
  | cancelled
deriving DecidableEq, Repr

/-- Terminal states per the specification: Completed, Failed, Cancelled. -/
def isTerminal (s : TaskStatus) : Bool :=
  match s with
  | TaskStatus.completed => true
  | TaskStatus.failed => true
  | TaskStatus.cancelled => true
  | _ => false

/-- The fields of `models.schemas.TaskInfo` that `update_task_status`
reads or writes, plus the `result` output field. `completed_at` stores an
abstract clock value; `result` is an abstract handle for the
`TranscriptionResult` payload. -/
structure TaskInfo where
  status : TaskStatus
  progress : ℤ
  error_message : Option String
  completed_at : Option ℕ
  result : Option ℕ
deriving DecidableEq, Repr

/-- `TaskService.update_task_status` on the stored record (the status-index
bookkeeping is not modelled; it does not touch these fields). Faithful to
the source: the status is overwritten unconditionally; `progress or
task.progress` keeps the old value when the argument is `None` or `0`
(falsy); `error_message` is overwritten only by a truthy (non-empty)
message; `completed_at` is set to the current time on Completed or
Failed. -/
def update_task_status (task : TaskInfo) (status : TaskStatus)
    (error_message : Option String) (progress : Option ℤ) (now : ℕ) : TaskInfo :=
  let t1 := { task with
    status := status
    progress := match progress with
      | some p => if p ≠ 0 then p else task.progress
      | none => task.progress }
  let t2 := match error_message with
    | some e => if e ≠ "" then { t1 with error_message := some e } else t1
    | none => t1
  if status = TaskStatus.completed ∨ status = TaskStatus.failed then
    { t2 with completed_at := some now }
  else
    t2

/-- Counter fields of `models.schemas.BatchTaskInfo`. -/
structure BatchTaskInfo where
  total_count : ℤ
  pending_count : ℤ
  completed_count : ℤ
  failed_count : ℤ
deriving DecidableEq, Repr

/-- `TaskService.create_batch_task` / the batch record built at the top of
`VideoTranscriptionEngine.process_batch_urls`: `pending = total`,
`completed = failed = 0`. -/
def create_batch_task (total : ℤ) : BatchTaskInfo :=
  { total_count := total, pending_count := total,
    completed_count := 0, failed_count := 0 }

/-- The counter mutations the code performs on a batch record:
the success and failure branches of `process_single_url` in
`VideoTranscriptionEngine.process_batch_urls`, and
`TaskService.update_batch_task(completed, failed)`. -/
inductive BatchOp where
  | jobCompleted
  | jobFailed
  | update_batch_task (completed failed : ℤ)
deriving DecidableEq, Repr

/-- Effect of one batch operation on the counters, faithful to the source:
success does `completed_count += 1; pending_count -= 1`; failure does
`failed_count += 1; pending_count -= 1`; `update_batch_task` does
`completed_count += completed; failed_count += failed;
pending_count -= (completed + failed)`. -/
def batchStep (b : BatchTaskInfo) (op : BatchOp) : BatchTaskInfo :=
  match op with
  | BatchOp.jobCompleted =>
      { b with completed_count := b.completed_count + 1,
               pending_count := b.pending_count - 1 }
  | BatchOp.jobFailed =>
      { b with failed_count := b.failed_count + 1,
               pending_count := b.pending_count - 1 }
  | BatchOp.update_batch_task c f =>
      { b with completed_count := b.completed_count + c,
               failed_count := b.failed_count + f,
               pending_count := b.pending_count - (c + f) }

/-- The batch counter invariant `pending + completed + failed == total`. -/
def batchInvariant (b : BatchTaskInfo) : Prop :=
  b.pending_count + b.completed_count + b.failed_count = b.total_count

/-! ### Postprocessor: `SenseVoiceTranscriber._clean_special_tokens` -/

/-- ASCII whitespace matched by the regex class in the cleaning patterns
and by `str.strip`. -/
def isWsChar (c : Char) : Bool :=
  c = ' ' || c = '\t' || c = '\n' || c = '\x0d' || c = '\x0b' || c = '\x0c'

/-- A character matched by the character class of the generic token pattern
(ASCII letters and underscore). -/
def isTokChar (c : Char) : Bool :=
  c.isAlpha || c = '_'

/-- Matcher for the generic pattern, applied to the characters following a
literal opening angle bracket: a vertical bar, a non-empty run of
`isTokChar` characters, a vertical bar, a closing angle bracket. Returns
the remainder after the match. -/
def matchGeneric : List Char → Option (List Char)
  | '|' :: cs =>
      let run := cs.takeWhile isTokChar
      let rest := cs.dropWhile isTokChar
      if run.isEmpty then none
      else
        match rest with
        | '|' :: '>' :: rest2 => some rest2
        | _ => none
  | _ => none

/-- Try one alternative of a word-list pattern against the characters
following the opening bar: the word itself, a bar, a closing bracket. -/
def tryWord (w : List Char) (cs : List Char) : Option (List Char) :=
  if cs.take w.length = w then
    match cs.drop w.length with
    | '|' :: '>' :: rest => some rest
    | _ => none
  else none

/-- Matcher for a finite-alternation pattern (the language, emotion and
event patterns), applied to the characters following the opening angle
bracket; alternatives are tried in order as the regex engine does. -/
def matchWords (words : List (List Char)) : List Char → Option (List Char)
  | '|' :: cs => words.foldr (fun w acc => (tryWord w cs).orElse (fun _ => acc)) none
  | _ => none

/-- One `re.sub(pattern, '', text)` pass: scan left to right; at a literal
opening angle bracket try the matcher on the following characters and, on a
match, emit nothing and resume after it; otherwise copy the character. Fuel
is the input length, which bounds the scan since every step consumes at
least one character. -/
def subToks (m : List Char → Option (List Char)) : ℕ → List Char → List Char
  | 0, l => l
  | _ + 1, [] => []
  | fuel + 1, c :: cs =>
      if c = '<' then
        match m cs with
        | some rest => subToks m fuel rest
        | none => c :: subToks m fuel cs
      else
        c :: subToks m fuel cs

/-- Alternatives of the language-tag pattern. -/
def langWords : List (List Char) :=
  [String.toList "zh", String.toList "en", String.toList "ja",
   String.toList "ko", String.toList "yue", String.toList "nospeech"]

/-- Alternatives of the emotion-tag pattern. -/
def emotionWords : List (List Char) :=
  [String.toList "NEUTRAL", String.toList "HAPPY", String.toList "SAD",
   String.toList "ANGRY", String.toList "EMO_UNKNOWN"]

/-- Alternatives of the event-tag pattern. -/
def eventWords : List (List Char) :=
  [String.toList "Speech", String.toList "Music", String.toList "BGM"]

/-- One `re.sub(r'\s+', ' ', text)` pass: every maximal whitespace run is
replaced by a single space. The flag records whether the previous input
character belonged to a whitespace run already emitted. -/
def collapseAux : Bool → List Char → List Char
  | _, [] => []
  | prevWs, c :: cs =>
      if isWsChar c then
        if prevWs then collapseAux true cs
        else ' ' :: collapseAux true cs
      else
        c :: collapseAux false cs

/-- `re.sub(r'\s+', ' ', text)`. -/
def collapseWs (l : List Char) : List Char :=
  collapseAux false l

/-- `str.strip()`: drop leading and trailing whitespace
(`List.rdropWhile p l = (l.reverse.dropWhile p).reverse`). -/
def stripWs (l : List Char) : List Char :=
  (l.dropWhile isWsChar).rdropWhile isWsChar

/-- `SenseVoiceTranscriber._clean_special_tokens` with the instance flag
`clean_special_tokens = True` (its constructor default): empty input is
returned unchanged; otherwise the four token patterns are substituted away
in source order (language, emotion, event, generic), then whitespace runs
are collapsed and the result is stripped. -/
def clean_special_tokens (l : List Char) : List Char :=
  if l = [] then l
  else
    let t1 := subToks (matchWords langWords) l.length l
    let t2 := subToks (matchWords emotionWords) t1.length t1
    let t3 := subToks (matchWords eventWords) t2.length t2
    let t4 := subToks matchGeneric t3.length t3
    stripWs (collapseWs t4)

/-- Whether the text still contains a bracketed meta-token of the shape the
generic pattern matches. -/
def hasTag : List Char → Bool
  | [] => false
  | c :: cs => (c = '<' && (matchGeneric cs).isSome) || hasTag cs

/-- No two adjacent whitespace characters. -/
abbrev noTwoWs (l : List Char) : Prop :=
  List.Chain' (fun a b => ¬(isWsChar a = true ∧ isWsChar b = true)) l

theorem wsSpace_collapseAux :
    ∀ (l : List Char) (b : Bool) (c : Char),
      c ∈ collapseAux b l → isWsChar c = true → c = ' ' := by
  intro l
  induction l with
  | nil => intro b c h; simp [collapseAux] at h
  | cons x xs ih =>
      intro b c h hcw
      by_cases hx : isWsChar x = true
      · cases b with
        | true =>
            simp only [collapseAux, hx, if_pos rfl] at h
            exact ih true c h hcw
        | false =>
            simp only [collapseAux, hx, if_pos rfl] at h
            rcases List.mem_cons.mp h with h' | h'
            · exact h'
            · exact ih true c h' hcw
      · simp only [collapseAux, hx] at h
        rcases List.mem_cons.mp h with h' | h'
        · subst h'
          rw [hcw] at hx
          cases hx rfl
        · exact ih false c h' hcw

/-- Chain encoding of the specification's "sorted by start time and pairwise
non-overlapping (strictly ordered)" for a segment list: every segment ends
no later than the next one starts. -/
def orderedSegs : List Seg → Bool
  | [] => true
  | [_] => true
  | a :: b :: rest => decide (a.stop ≤ b.start) && orderedSegs (b :: rest)

/-- The truthy (non-zero) confidences of a segment list, in order, as
collected by the averaging loop of `merge_results`. -/
def nonzeroConfs (segs : List Seg) : List ℚ :=
  (segs.filter (fun s => decide (s.confidence ≠ 0))).map Seg.confidence

/-- Mean of a list of confidences, defaulting to 0.5 when the list is
empty. -/
def meanOrHalf (cs : List ℚ) : ℚ :=
  if cs = [] then 1 / 2 else cs.sum / (cs.length : ℚ)

/-! ### Helper lemmas -/

theorem splitLoop_ok_chained (cfg : AudioChunker) (ffmpegOk : ℕ → Bool) (total : ℚ) :
    ∀ (fuel : ℕ) (s : ℚ) (idx : ℕ) (acc l : List AudioChunk),
      splitLoop cfg ffmpegOk total fuel s idx acc = Except.ok l →
      ∃ suf, l = acc.reverse ++ suf ∧ chunksChainedFrom cfg total s suf = true := by
  intro fuel
  induction fuel with
  | zero =>
      intro s idx acc l h
      refine ⟨[], ?_, rfl⟩
      simpa [splitLoop] using h.symm
  | succ fuel ih =>
      intro s idx acc l h
      simp only [splitLoop] at h
      by_cases hs : s < total
      · simp only [if_pos hs] at h
        by_cases hsmall : min (s + (cfg.chunk_duration : ℚ)) total - s < 300
        · simp only [if_pos hsmall] at h
          exact ⟨[], by simpa using h.symm, rfl⟩
        · simp only [if_neg hsmall] at h
          by_cases hok : ffmpegOk idx = true
          · simp only [hok, if_pos rfl] at h
            by_cases hlast : total - 1 ≤ min (s + (cfg.chunk_duration : ℚ)) total
            · simp only [if_pos hlast] at h
              refine ⟨[{ path := ChunkPath.chunk idx, start_time := s,
                         end_time := min (s + (cfg.chunk_duration : ℚ)) total }], ?_, ?_⟩
              · simpa using h.symm
              · simp [chunksChainedFrom]
                linarith [not_lt.mp hsmall]
            · simp only [if_neg hlast] at h
              obtain ⟨suf, hl, hchain⟩ := ih _ _ _ _ h
              refine ⟨{ path := ChunkPath.chunk idx, start_time := s,
                        end_time := min (s + (cfg.chunk_duration : ℚ)) total } :: suf, ?_, ?_⟩
              · simpa using hl
              · simp [chunksChainedFrom, hchain]
                linarith [not_lt.mp hsmall]
          · simp only [Bool.not_eq_true] at hok
            simp [hok] at h
      · simp only [if_neg hs] at h
        exact ⟨[], by simpa using h.symm, rfl⟩

theorem splitLoop_ne_error (cfg : AudioChunker) (ffmpegOk : ℕ → Bool) (total : ℚ)
    (hok : ∀ i, ffmpegOk i = true) :
    ∀ (fuel : ℕ) (s : ℚ) (idx : ℕ) (acc : List AudioChunk),
      splitLoop cfg ffmpegOk total fuel s idx acc ≠ Except.error () := by
  intro fuel
  induction fuel with
  | zero => intro s idx acc; simp [splitLoop]
  | succ fuel ih =>
      intro s idx acc
      simp only [splitLoop]
      split_ifs with hs hsmall hokb hlast
      · simp
      · simp
      · exact ih _ _ _
      · exact absurd (hok idx) hokb
      · simp

theorem mergeRest_merged_segments (overlap : ℚ) :
    ∀ (rs : List ChunkResult) (st : MergeState),
      (mergeRest overlap st rs).merged_segments =
        st.merged_segments ++ survivorsAux overlap st.time_offset rs := by
  intro rs
  induction rs with
  | nil => intro st; simp [mergeRest, survivorsAux]
  | cons r rs ih =>
      intro st
      simp only [mergeRest, survivorsAux, ih, List.append_assoc]

theorem mergeRest_detected_language (overlap : ℚ) :
    ∀ (rs : List ChunkResult) (st : MergeState),
      (mergeRest overlap st rs).detected_language = st.detected_language := by
  intro rs
  induction rs with
  | nil => intro st; simp [mergeRest]
  | cons r rs ih => intro st; simp only [mergeRest, ih]

theorem merge_results_segments (overlap : ℚ) (chunk_results : List ChunkResult) :
    (merge_results overlap chunk_results).segments = survivors overlap chunk_results := by
  match chunk_results with
  | [] => simp [merge_results, survivors]
  | [r] => simp [merge_results, survivors, survivorsAux]
  | r0 :: r1 :: rest =>
      simp [merge_results, survivors, mergeRest_merged_segments]

theorem batchStep_invariant (b : BatchTaskInfo) (op : BatchOp)
    (h : batchInvariant b) : batchInvariant (batchStep b op) := by
  cases op <;> simp [batchInvariant, batchStep] at h ⊢ <;> linarith

theorem batchFold_invariant (b : BatchTaskInfo) (ops : List BatchOp)
    (h : batchInvariant b) : batchInvariant (ops.foldl batchStep b) := by
  induction ops generalizing b with
  | nil => simpa using h
  | cons op ops ih => exact ih _ (batchStep_invariant b op h)

theorem subToks_eq_of_not_mem (m : List Char → Option (List Char)) :
    ∀ (fuel : ℕ) (l : List Char), '<' ∉ l → subToks m fuel l = l := by
  intro fuel
  induction fuel with
  | zero => intro l _; rfl
  | succ fuel ih =>
      intro l h
      match l with
      | [] => rfl
      | c :: cs =>
          have hc : ¬ c = '<' := fun hc => h (hc ▸ List.mem_cons_self c cs)
          have hcs : '<' ∉ cs := fun hx => h (List.mem_cons_of_mem c hx)
          simp only [subToks, if_neg hc, ih cs hcs]

theorem hasTag_eq_false (l : List Char) (h : '<' ∉ l) : hasTag l = false := by
  induction l with
  | nil => rfl
  | cons c cs ih =>
      have hc : ¬ c = '<' := fun hc => h (hc ▸ List.mem_cons_self c cs)
      have hcs : '<' ∉ cs := fun hx => h (List.mem_cons_of_mem c hx)
      simp [hasTag, hc, ih hcs]

theorem mem_collapseAux :
    ∀ (l : List Char) (b : Bool) (c : Char), c ∈ collapseAux b l → c = ' ' ∨ c ∈ l := by
  intro l
  induction l with
  | nil => intro b c h; simp [collapseAux] at h
  | cons x xs ih =>
      intro b c h
      by_cases hx : isWsChar x = true
      · cases b with
        | true =>
            simp only [collapseAux, hx, if_pos rfl] at h
            rcases ih true c h with h' | h'
            · exact Or.inl h'
            · exact Or.inr (List.mem_cons_of_mem x h')
        | false =>
            simp only [collapseAux, hx, if_pos rfl] at h
            rcases List.mem_cons.mp h with h' | h'
            · exact Or.inl h'
            · rcases ih true c h' with h'' | h''
              · exact Or.inl h''
              · exact Or.inr (List.mem_cons_of_mem x h'')
      · simp only [collapseAux, hx] at h
        rcases List.mem_cons.mp h with h' | h'
        · exact Or.inr (h' ▸ List.mem_cons_self x xs)
        · rcases ih false c h' with h'' | h''
          · exact Or.inl h''
          · exact Or.inr (List.mem_cons_of_mem x h'')

theorem collapseAux_true_head :
    ∀ (l : List Char) (c : Char), (collapseAux true l).head? = some c → isWsChar c = false := by
  intro l
  induction l with
  | nil => intro c h; simp [collapseAux] at h
  | cons x xs ih =>
      intro c h
      by_cases hx : isWsChar x = true
      · simp only [collapseAux] at h
        rw [if_pos hx] at h
        simp only [if_true] at h
        exact ih c h
      · simp only [collapseAux] at h
        rw [if_neg hx] at h
        simp only [List.head?_cons, Option.some.injEq] at h
        subst h
        simpa using hx

theorem noTwoWs_collapseAux : ∀ (l : List Char) (b : Bool), noTwoWs (collapseAux b l) := by
  intro l
  induction l with
  | nil => intro b; simp [collapseAux]
  | cons x xs ih =>
      intro b
      by_cases hx : isWsChar x = true
      · cases b with
        | true => simpa [collapseAux, hx] using ih true
        | false =>
            simp only [collapseAux]
            rw [if_pos hx, if_neg (by simp : ¬ (false = true))]
            refine List.chain'_cons'.mpr ⟨?_, ih true⟩
            intro y hy
            have := collapseAux_true_head xs y (Option.mem_def.mp hy)
            simp [this]
      · simp only [collapseAux]
        rw [if_neg hx]
        refine List.chain'_cons'.mpr ⟨?_, ih false⟩
        intro y hy
        simp [hx]

theorem collapseAux_id :
    ∀ (l : List Char), (∀ c ∈ l, isWsChar c = true → c = ' ') → noTwoWs l →
      collapseAux false l = l ∧
        ((∀ c ∈ l.head?, isWsChar c = false) → collapseAux true l = l) := by
  intro l
  induction l with
  | nil => intro _ _; exact ⟨rfl, fun _ => rfl⟩
  | cons x xs ih =>
      intro hws hchain
      have hws' : ∀ c ∈ xs, isWsChar c = true → c = ' ' :=
        fun c hc => hws c (List.mem_cons_of_mem x hc)
      have hchain' : noTwoWs xs := List.Chain'.tail hchain
      obtain ⟨ihf, iht⟩ := ih hws' hchain'
      by_cases hx : isWsChar x = true
      · have hxsp : x = ' ' := hws x (List.mem_cons_self x xs) hx
        have hhead : ∀ c ∈ xs.head?, isWsChar c = false := by
          intro c hc
          cases xs with
          | nil => simp at hc
          | cons y ys =>
              simp only [List.head?_cons, Option.mem_def, Option.some.injEq] at hc
              subst hc
              have hr := (List.chain'_cons'.mp hchain).1 y (by simp)
              by_contra hcw
              simp only [Bool.not_eq_false] at hcw
              exact hr ⟨hx, hcw⟩
        constructor
        · simp only [collapseAux]
          rw [if_pos hx, if_neg (by simp : ¬ (false = true))]
          rw [iht hhead, hxsp]
        · intro hh
          have hxf := hh x (by simp)
          rw [hx] at hxf
          cases hxf
      · constructor
        · simp only [collapseAux]
          rw [if_neg hx, ihf]
        · intro _
          simp only [collapseAux]
          rw [if_neg hx, ihf]

theorem stripWs_isInfix (l : List Char) : stripWs l <:+: l :=
  ((List.rdropWhile_prefix isWsChar (l.dropWhile isWsChar)).isInfix).trans
    (List.dropWhile_suffix isWsChar).isInfix

theorem head_dropWhile_not :
    ∀ (l : List Char) (x : Char) (xs : List Char),
      l.dropWhile isWsChar = x :: xs → isWsChar x = false := by
  intro l
  induction l with
  | nil => intro x xs h; simp [List.dropWhile] at h
  | cons y ys ih =>
      intro x xs h
      by_cases hy : isWsChar y = true
      · rw [List.dropWhile_cons_of_pos hy] at h
        exact ih x xs h
      · rw [List.dropWhile_cons_of_neg hy] at h
        cases h
        simpa using hy

theorem stripWs_head (l : List Char) :
    ∀ c ∈ (stripWs l).head?, isWsChar c = false := by
  intro c hc
  rw [Option.mem_def] at hc
  cases hsw : stripWs l with
  | nil => rw [hsw] at hc; cases hc
  | cons x rest =>
      rw [hsw] at hc
      simp only [List.head?_cons, Option.some.injEq] at hc
      rw [← hc]
      have hp : stripWs l <+: l.dropWhile isWsChar := List.rdropWhile_prefix _ _
      obtain ⟨t, ht⟩ := hp
      rw [hsw] at ht
      exact head_dropWhile_not l x (rest ++ t) (by rw [← ht]; rfl)

theorem stripWs_eq_self (l : List Char)
    (hh : ∀ c ∈ l.head?, isWsChar c = false)
    (hl : ∀ hne : l ≠ [], isWsChar (l.getLast hne) = false) : stripWs l = l := by
  have h1 : l.dropWhile isWsChar = l := by
    rw [List.dropWhile_eq_self_iff]
    intro hpos
    match l, hpos with
    | x :: xs, _ =>
        have := hh x (by simp)
        simp [this]
  rw [stripWs, h1, List.rdropWhile_eq_self_iff]
  intro hne
  simp [hl hne]

theorem normWs_props (l : List Char) :
    (∀ c ∈ stripWs (collapseWs l), isWsChar c = true → c = ' ') ∧
      noTwoWs (stripWs (collapseWs l)) ∧
      (∀ c ∈ (stripWs (collapseWs l)).head?, isWsChar c = false) ∧
      (∀ hne : stripWs (collapseWs l) ≠ [],
        isWsChar ((stripWs (collapseWs l)).getLast hne) = false) := by
  refine ⟨?_, ?_, stripWs_head _, ?_⟩
  · intro c hc hcw
    have hmem : c ∈ collapseWs l := (stripWs_isInfix (collapseWs l)).subset hc
    exact wsSpace_collapseAux l false c hmem hcw
  · exact List.Chain'.infix (noTwoWs_collapseAux l false) (stripWs_isInfix (collapseWs l))
  · intro hne
    have h := List.rdropWhile_last_not isWsChar ((collapseWs l).dropWhile isWsChar) hne
    simpa using h

theorem collapseWs_fixed (l : List Char) :
    collapseWs (stripWs (collapseWs l)) = stripWs (collapseWs l) := by
  obtain ⟨h1, h2, _, _⟩ := normWs_props l
  exact (collapseAux_id _ h1 h2).1

theorem stripWs_collapseWs_idem (l : List Char) :
    stripWs (collapseWs (stripWs (collapseWs l))) = stripWs (collapseWs l) := by
  obtain ⟨_, _, h3, h4⟩ := normWs_props l
  rw [collapseWs_fixed]
  exact stripWs_eq_self _ h3 h4

theorem not_mem_stripWs_collapseWs (l : List Char) (h : '<' ∉ l) :
    '<' ∉ stripWs (collapseWs l) := by
  intro hmem
  have hm := (stripWs_isInfix (collapseWs l)).subset hmem
  rcases mem_collapseAux l false _ hm with h' | h'
  · exact absurd h' (by decide)
  · exact h h'

theorem clean_eq_normWs_of_not_mem (l : List Char) (h : '<' ∉ l) :
    clean_special_tokens l = stripWs (collapseWs l) := by
  by_cases hl : l = []
  · subst hl
    simp [clean_special_tokens, stripWs, collapseWs, collapseAux]
  · unfold clean_special_tokens
    rw [if_neg hl]
    simp only [show ∀ (m : List Char → Option (List Char)) (fuel : ℕ),
      subToks m fuel l = l from fun m fuel => subToks_eq_of_not_mem m fuel l h]

/-! ### Claims -/

/-- Claim C1, counterexample: with the default chunker (300 s chunks, 2 s
overlap, 600 s threshold) and a 900 s input, `split_audio` emits
[0,300], [298,598], [596,896]: the final chunk ends at 896, not at the
duration 900, and the sub-300 s tail (896,900] is dropped — not merged into
the previous chunk — so the union of chunk intervals does not cover
[0, 900]. -/
theorem c1_counterexample :
    split_audio defaultAudioChunker (fun _ => true) 900 =
      [{ path := ChunkPath.chunk 0, start_time := 0, end_time := 300 },
       { path := ChunkPath.chunk 1, start_time := 298, end_time := 598 },
       { path := ChunkPath.chunk 2, start_time := 596, end_time := 896 }] ∧
    (896 : ℚ) ≠ 900 := by
  refine ⟨?_, by norm_num⟩
  norm_num [split_audio, should_chunk, defaultAudioChunker, splitFuel,
    splitLoop, min_def]

/-- Claim C1 as amended: when chunking triggers and every extraction
succeeds, the emitted chunks form a chain from 0 in which each chunk starts
where the loop stands, ends at `min (start + chunk_seconds) duration`, is at
least 300 s long, and the next chunk begins at the previous end minus the
overlap; the below-300 s tail is dropped, so the chunks need not reach the
duration and coverage of `[0, duration]` is not guaranteed. -/
theorem c1_split_chunks_chained (cfg : AudioChunker) (ffmpegOk : ℕ → Bool)
    (total : ℚ) (hmin : (cfg.min_duration_for_chunking : ℚ) < total)
    (hok : ∀ i, ffmpegOk i = true) :
    chunksChainedFrom cfg total 0 (split_audio cfg ffmpegOk total) = true := by
  unfold split_audio
  rw [if_pos (by simpa [should_chunk] using hmin)]
  cases hres : splitLoop cfg ffmpegOk total (splitFuel cfg total) 0 0 [] with
  | ok l =>
      obtain ⟨suf, hl, hchain⟩ :=
        splitLoop_ok_chained cfg ffmpegOk total _ _ _ _ _ hres
      simp only [List.reverse_nil, List.nil_append] at hl
      simpa [hl] using hchain
  | error e =>
      cases e
      exact absurd hres (splitLoop_ne_error cfg ffmpegOk total hok _ _ _ _)

/-- Claim C1 witness: the chain property evaluated on the 900 s run. -/
theorem c1_witness :
    chunksChainedFrom defaultAudioChunker 900 0
      (split_audio defaultAudioChunker (fun _ => true) 900) = true :=
  c1_split_chunks_chained defaultAudioChunker (fun _ => true) 900
    (by norm_num [defaultAudioChunker]) (fun _ => rfl)

/-- Claim C2, counterexample: two adjacent chunk results; the later chunk's
first segment shifted to absolute time starts at 5 + 298 = 303, which is not
inside the overlap region (the previous chunk's absolute end is 300), yet it
is dropped: the merged segments are only the first chunk's segment and the
later chunk's second segment. -/
theorem c2_counterexample :
    (merge_results 2
      [{ text := "a",
         segments := [{ start := 0, stop := 10, text := "a", confidence := 9/10 }],
         language := "zh", confidence := 95/100, processing_time := 1,
         start_time := 0, end_time := 300 },
       { text := "b c",
         segments := [{ start := 5, stop := 10, text := "b", confidence := 9/10 },
                      { start := 20, stop := 30, text := "c", confidence := 9/10 }],
         language := "zh", confidence := 95/100, processing_time := 1,
         start_time := 298, end_time := 600 }]).segments =
      [{ start := 0, stop := 10, text := "a", confidence := 9/10 },
       { start := 318, stop := 328, text := "c", confidence := 9/10 }] ∧
    ¬ ((5 : ℚ) + 298 < 300) := by
  refine ⟨?_, by norm_num⟩
  norm_num [merge_results, mergeRest, shiftSeg]

/-- Claim C2 as amended: for an adjacent pair of chunk results, the later
chunk's first segment is dropped unconditionally whenever the chunk has more
than one segment, and all of its segments are dropped when it has at most
one; whether a segment begins inside the overlap region plays no role. -/
theorem c2_merge_drop_rule (overlap : ℚ) (r0 r1 : ChunkResult) :
    (merge_results overlap [r0, r1]).segments =
      r0.segments ++
        (if 1 < r1.segments.length then
          (r1.segments.map (shiftSeg ((r0.end_time - r0.start_time) - overlap))).tail
        else []) := by
  simp [merge_results, mergeRest]

/-- Claim C3, counterexample: a two-chunk input, each chunk internally sorted
and non-overlapping, whose merged segments are [0,300] followed by
[299,301] — out of order and overlapping, so the merge output is not
strictly ordered. -/
theorem c3_counterexample :
    orderedSegs
      ((merge_results 2
        [{ text := "a",
           segments := [{ start := 0, stop := 300, text := "a", confidence := 9/10 }],
           language := "zh", confidence := 95/100, processing_time := 1,
           start_time := 0, end_time := 300 },
         { text := "x c",
           segments := [{ start := 0, stop := 1, text := "x", confidence := 9/10 },
                        { start := 1, stop := 3, text := "c", confidence := 9/10 }],
           language := "zh", confidence := 95/100, processing_time := 1,
           start_time := 298, end_time := 600 }]).segments) = false := by
  norm_num [merge_results, mergeRest, shiftSeg, orderedSegs]

/-- Claim C3 as amended: merge neither sorts nor removes overlaps — it
concatenates the surviving segments in input order, so its output is
strictly ordered and non-overlapping exactly when the shifted surviving
segments already are. -/
theorem c3_merge_ordered_iff (overlap : ℚ) (chunk_results : List ChunkResult) :
    orderedSegs ((merge_results overlap chunk_results).segments) =
      orderedSegs (survivors overlap chunk_results) := by
  rw [merge_results_segments]

/-- Claim C4, counterexample: the surviving segment confidences are
[9/10, 0], whose arithmetic mean is 9/20, but the averaging loop skips the
falsy confidence 0 and the merge returns 9/10. -/
theorem c4_counterexample :
    ((merge_results 2
      [{ text := "a",
         segments := [{ start := 0, stop := 10, text := "a", confidence := 9/10 }],
         language := "zh", confidence := 95/100, processing_time := 1,
         start_time := 0, end_time := 300 },
       { text := "x b",
         segments := [{ start := 0, stop := 1, text := "x", confidence := 1/2 },
                      { start := 2, stop := 3, text := "b", confidence := 0 }],
         language := "zh", confidence := 95/100, processing_time := 1,
         start_time := 298, end_time := 600 }]).segments).map Seg.confidence =
      [9/10, 0] ∧
    (merge_results 2
      [{ text := "a",
         segments := [{ start := 0, stop := 10, text := "a", confidence := 9/10 }],
         language := "zh", confidence := 95/100, processing_time := 1,
         start_time := 0, end_time := 300 },
       { text := "x b",
         segments := [{ start := 0, stop := 1, text := "x", confidence := 1/2 },
                      { start := 2, stop := 3, text := "b", confidence := 0 }],
         language := "zh", confidence := 95/100, processing_time := 1,
         start_time := 298, end_time := 600 }]).confidence = some (9/10) ∧
    ((9/10 + 0) / 2 : ℚ) ≠ 9/10 := by
  refine ⟨?_, ?_, by norm_num⟩
  · norm_num [merge_results, mergeRest, shiftSeg]
  · norm_num [merge_results, mergeRest, shiftSeg]

/-- Claim C4 as amended: with two or more chunk results, the detected
language is the first chunk's language unless it is "unknown" (later chunks
are never consulted, non-empty or not), and the overall confidence is the
mean of the non-zero surviving segment confidences, 0.5 when there are
none — confidences equal to 0 are excluded by the truthiness test. (With
zero or one chunk results the loop never runs: a single chunk result is
returned unchanged.) -/
theorem c4_merge_language_confidence (overlap : ℚ) (r0 r1 : ChunkResult)
    (rest : List ChunkResult) :
    (merge_results overlap (r0 :: r1 :: rest)).language =
      (if r0.language ≠ "unknown" then r0.language else "unknown") ∧
    (merge_results overlap (r0 :: r1 :: rest)).confidence =
      some (meanOrHalf (nonzeroConfs (survivors overlap (r0 :: r1 :: rest)))) := by
  constructor
  · simp only [merge_results]
    rw [mergeRest_detected_language]
  · simp only [merge_results, meanOrHalf, nonzeroConfs]
    rw [mergeRest_merged_segments]
    simp [survivors]

/-- Claim C5, counterexample: a Completed task record; a further
`update_task_status` call overwrites its status with Pending — the store
never guards terminal states, so a terminal state is not written exactly
once. -/
theorem c5_counterexample :
    isTerminal
      ({ status := TaskStatus.completed, progress := 100, error_message := none,
         completed_at := some 1, result := some 7 } : TaskInfo).status = true ∧
    (update_task_status
      { status := TaskStatus.completed, progress := 100, error_message := none,
        completed_at := some 1, result := some 7 }
      TaskStatus.pending none none 2).status = TaskStatus.pending ∧
    TaskStatus.pending ≠ TaskStatus.completed := by
  refine ⟨rfl, by decide, by decide⟩

/-- Claim C5 as amended: `update_task_status` overwrites the status with its
argument unconditionally — also out of terminal states — but it never
touches the `result` field, so a completed job's stored transcript survives
further calls even though the status does not. -/
theorem c5_update_status_unguarded (task : TaskInfo) (status : TaskStatus)
    (error_message : Option String) (progress : Option ℤ) (now : ℕ) :
    (update_task_status task status error_message progress now).status = status ∧
    (update_task_status task status error_message progress now).result =
      task.result := by
  unfold update_task_status
  constructor
  · cases error_message <;> dsimp only <;> split_ifs <;> rfl
  · cases error_message <;> dsimp only <;> split_ifs <;> rfl

/-- Claim C6, counterexample: a non-terminal task with progress 50; an
update carrying progress 10 is recorded as-is, lowering the progress —
monotonicity is not enforced. -/
theorem c6_counterexample :
    isTerminal TaskStatus.transcribing = false ∧
    (update_task_status
      { status := TaskStatus.transcribing, progress := 50, error_message := none,
        completed_at := none, result := none }
      TaskStatus.transcribing none (some 10) 0).progress = 10 ∧
    (10 : ℤ) < 50 := by
  refine ⟨rfl, by decide, by norm_num⟩

/-- Claim C6 as amended: the store records any truthy progress value it is
handed, so the recorded progress is non-decreasing only when each supplied
value is at least the current one: under that hypothesis an update never
lowers the progress (a zero value is falsy and leaves it unchanged). -/
theorem c6_progress_nondecreasing (task : TaskInfo) (status : TaskStatus)
    (error_message : Option String) (now : ℕ) (p : ℤ)
    (h : task.progress ≤ p) :
    task.progress ≤
      (update_task_status task status error_message (some p) now).progress := by
  have hp : (update_task_status task status error_message (some p) now).progress
      = if p ≠ 0 then p else task.progress := by
    unfold update_task_status
    cases error_message <;> dsimp only <;> split_ifs <;> rfl
  rw [hp]
  split_ifs with h0
  · exact h
  · exact le_refl _

/-- Claim C6 witness: the monotone case evaluated on a concrete update. -/
theorem c6_witness :
    ({ status := TaskStatus.pending, progress := 10, error_message := none,
       completed_at := none, result := none } : TaskInfo).progress ≤
      (update_task_status
        { status := TaskStatus.pending, progress := 10, error_message := none,
          completed_at := none, result := none }
        TaskStatus.extracting none (some 20) 5).progress :=
  c6_progress_nondecreasing
    { status := TaskStatus.pending, progress := 10, error_message := none,
      completed_at := none, result := none }
    TaskStatus.extracting none 5 20 (by norm_num)

/-- Claim C7: starting from batch creation, any sequence of the code's
counter operations (per-job success, per-job failure, `update_batch_task`)
preserves `pending + completed + failed = total`, so the invariant holds at
every observation point between operations. -/
theorem c7_batch_counters_invariant (total : ℤ) (ops : List BatchOp) :
    batchInvariant (ops.foldl batchStep (create_batch_task total)) := by
  apply batchFold_invariant
  simp [batchInvariant, create_batch_task]

/-- Claim C8, counterexample: with every ffmpeg extraction failing, the
chunk loop raises, but `split_audio` swallows the error and returns the
original file as a single whole-file chunk: no `SplitFailed` reaches the
caller and no job failure is driven. -/
theorem c8_counterexample :
    splitLoop defaultAudioChunker (fun _ => false) 900
        (splitFuel defaultAudioChunker 900) 0 0 [] =
      Except.error () ∧
    split_audio defaultAudioChunker (fun _ => false) 900 =
      [{ path := ChunkPath.original, start_time := 0, end_time := 900 }] := by
  constructor
  · norm_num [splitLoop, splitFuel, defaultAudioChunker, min_def]
  · norm_num [split_audio, should_chunk, defaultAudioChunker, splitFuel,
      splitLoop, min_def]

/-- Claim C8 as amended: whenever the extraction loop raises an I/O or codec
error, `split_audio` catches it and returns the original file as one
whole-file chunk; no failure propagates to the caller. -/
theorem c8_split_error_fallback (cfg : AudioChunker) (ffmpegOk : ℕ → Bool)
    (total : ℚ)
    (h : splitLoop cfg ffmpegOk total (splitFuel cfg total) 0 0 [] =
      Except.error ()) :
    split_audio cfg ffmpegOk total =
      [{ path := ChunkPath.original, start_time := 0, end_time := total }] := by
  unfold split_audio
  split_ifs with hc
  · rw [h]
  · rfl

/-- Claim C8 witness: the fallback evaluated on the failing 900 s run. -/
theorem c8_witness :
    split_audio defaultAudioChunker (fun _ => false) 900 =
      [{ path := ChunkPath.original, start_time := 0, end_time := 900 }] :=
  c8_split_error_fallback defaultAudioChunker (fun _ => false) 900
    (by norm_num [splitLoop, splitFuel, defaultAudioChunker, min_def])

/-- Claim C9, counterexample: cleaning the string made of the eleven
characters angle-bar-a-angle-bar-b-bar-angle-c-bar-angle removes the inner
token and splices its surroundings into a new token: the cleaned text still
contains a token of the targeted shape, and cleaning it again yields the
empty string, so cleaning is neither complete nor idempotent. -/
theorem c9_counterexample :
    clean_special_tokens (String.toList "<|a<|b|>c|>") = String.toList "<|ac|>" ∧
    hasTag (clean_special_tokens (String.toList "<|a<|b|>c|>")) = true ∧
    clean_special_tokens
        (clean_special_tokens (String.toList "<|a<|b|>c|>")) ≠
      clean_special_tokens (String.toList "<|a<|b|>c|>") := by
  refine ⟨by decide, by decide, by decide⟩

/-- Claim C9 as amended: a cleaning pass can splice the characters around a
removed token into a new token, so completeness and idempotence fail in
general; on any input containing no opening angle bracket the pass only
collapses whitespace, and there the output contains no token and cleaning
is idempotent. -/
theorem c9_clean_no_angle (l : List Char) (h : '<' ∉ l) :
    hasTag (clean_special_tokens l) = false ∧
    clean_special_tokens (clean_special_tokens l) = clean_special_tokens l := by
  have h1 : clean_special_tokens l = stripWs (collapseWs l) :=
    clean_eq_normWs_of_not_mem l h
  have h2 : '<' ∉ stripWs (collapseWs l) := not_mem_stripWs_collapseWs l h
  constructor
  · rw [h1]
    exact hasTag_eq_false _ h2
  · rw [h1, clean_eq_normWs_of_not_mem _ h2, stripWs_collapseWs_idem]

/-- Claim C9 witness: the no-angle-bracket case evaluated on a concrete
string with repeated and surrounding whitespace. -/
theorem c9_witness :
    hasTag (clean_special_tokens (String.toList " ab  cd ")) = false ∧
    clean_special_tokens (clean_special_tokens (String.toList " ab  cd ")) =
      clean_special_tokens (String.toList " ab  cd ") :=
  c9_clean_no_angle (String.toList " ab  cd ") (by decide)

/-- Claim C10: the SenseVoice transcriber's chunker defaults to 180 s
chunks, and any chunker configured with `chunk_duration < 300` returns the
empty list for every input long enough to be chunked: the very first block
is already shorter than the hard-coded 300 s minimum, so the loop breaks
before emitting anything. -/
theorem c10_short_chunk_duration_empty :
    sensevoiceAudioChunker.chunk_duration = 180 ∧
    ∀ (cfg : AudioChunker) (ffmpegOk : ℕ → Bool) (total : ℚ),
      (cfg.min_duration_for_chunking : ℚ) < total →
      cfg.chunk_duration < 300 →
      split_audio cfg ffmpegOk total = [] := by
  refine ⟨rfl, ?_⟩
  intro cfg ffmpegOk total hmin hcd
  unfold split_audio
  rw [if_pos (by simpa [should_chunk] using hmin)]
  rw [show splitFuel cfg total =
      (total.num.natAbs / (cfg.chunk_duration - cfg.overlap).toNat + 2) + 1 from rfl]
  by_cases h0 : (0 : ℚ) < total
  · have hcast : (cfg.chunk_duration : ℚ) < 300 := by exact_mod_cast hcd
    have hlt : min ((0 : ℚ) + (cfg.chunk_duration : ℚ)) total - 0 < 300 := by
      have h1 : min ((0 : ℚ) + (cfg.chunk_duration : ℚ)) total ≤
          (0 : ℚ) + (cfg.chunk_duration : ℚ) := min_le_left _ _
      linarith
    simp only [splitLoop, if_pos h0, if_pos hlt, List.reverse_nil]
  · simp only [splitLoop, if_neg h0, List.reverse_nil]

/-- Claim C10 witness: the SenseVoice chunker on a 400 s input produces no
chunks. -/
theorem c10_witness :
    split_audio sensevoiceAudioChunker (fun _ => true) 400 = [] :=
  c10_short_chunk_duration_empty.2 sensevoiceAudioChunker (fun _ => true) 400
    (by norm_num [sensevoiceAudioChunker]) (by norm_num [sensevoiceAudioChunker])

end VideoTranscriber
